import Mathlib

/-!
Verification of the eduOS 32-bit x86 paging headers.

Shallow embedding of:
- arch/x86/include/asm/page.h (paging constants, flag masks, alignment macros)
- arch/x86/include/asm/processor.h (CPU feature record and accessors)
- include/eduos/syscall.h (system-call number table)

Machine integers (C size_t / uint32_t) are embedded as Nat; 32-bit wraparound
is made explicit with % 2 ^ 32 exactly where the C expression can overflow.
The bodies of the Address Space Manager operations (page_map, page_unmap,
page_map_drop, virt_to_phys) are not part of the given sources (only their
declarations are); they are modelled from the specification and marked so.
-/

/-! Constants of arch/x86/include/asm/page.h -/

/-- Page offset bits. -/
def PAGE_BITS : Nat := 12

/-- The size of a single page in bytes. -/
def PAGE_SIZE : Nat := 1 <<< PAGE_BITS

/-- Total operand width in bits. -/
def BITS : Nat := 32

/-- Linear/virtual address width. -/
def VIRT_BITS : Nat := BITS

/-- Physical address width (no PAE). -/
def PHYS_BITS : Nat := BITS

/-- Page map bits. -/
def PAGE_MAP_BITS : Nat := 10

/-- Number of page map indirections. -/
def PAGE_MAP_LEVELS : Nat := 2

/-- Mask for the page address without page map flags. -/
def PAGE_MASK : Nat := 0xFFFFF000

/-- The number of entries in a page map table. -/
def PAGE_MAP_ENTRIES : Nat := 1 <<< PAGE_MAP_BITS

/-- Base address of the self-mapped page directory. -/
def PAGE_MAP_PGD : Nat := 0xFFFFF000

/-- Base address of the self-mapped page tables. -/
def PAGE_MAP_PGT : Nat := 0xFFC00000

/-- Align to next page: (addr + PAGE_SIZE - 1) & PAGE_MASK, in 32-bit size_t
arithmetic (the addition wraps modulo 2^32). -/
def PAGE_FLOOR (addr : Nat) : Nat := ((addr + PAGE_SIZE - 1) % 2 ^ BITS) &&& PAGE_MASK

/-- Align to page: addr & PAGE_MASK. -/
def PAGE_CEIL (addr : Nat) : Nat := addr &&& PAGE_MASK

/-- Page is present. -/
def PG_PRESENT : Nat := 1 <<< 0

/-- Page is read- and writable. -/
def PG_RW : Nat := 1 <<< 1

/-- Page is addressable from userspace. -/
def PG_USER : Nat := 1 <<< 2

/-- Page write through is activated. -/
def PG_PWT : Nat := 1 <<< 3

/-- Page cache is disabled. -/
def PG_PCD : Nat := 1 <<< 4

/-- Page was recently accessed (set by CPU). -/
def PG_ACCESSED : Nat := 1 <<< 5

/-- Page is dirty due to recent write-access (set by CPU). -/
def PG_DIRTY : Nat := 1 <<< 6

/-- Huge page: 4MB (or 2MB, 1GB). -/
def PG_PSE : Nat := 1 <<< 7

/-- Page attribute table (defined in the source as PG_PSE). -/
def PG_PAT : Nat := PG_PSE

/-- Global TLB entry (Pentium Pro and later). -/
def PG_GLOBAL : Nat := 1 <<< 8

/-- This page or table is used during the boot process. -/
def PG_BOOT : Nat := 1 <<< 9

/-- Address of a second-level Table inside the self-map window, computed from
its directory index: PAGE_MAP_PGT + index * PAGE_SIZE. -/
def pgtWindowAddr (idx : Nat) : Nat := PAGE_MAP_PGT + idx * PAGE_SIZE

/-! Constants of include/eduos/syscall.h -/

def __NR_exit : Nat := 0
def __NR_write : Nat := 1
def __NR_open : Nat := 2
def __NR_close : Nat := 3
def __NR_read : Nat := 4
def __NR_lseek : Nat := 6
def __NR_unlink : Nat := 7
def __NR_getpid : Nat := 8
def __NR_kill : Nat := 9
def __NR_fstat : Nat := 10
def __NR_sbrk : Nat := 11
def __NR_fork : Nat := 12
def __NR_wait : Nat := 13
def __NR_execve : Nat := 14
def __NR_times : Nat := 15
def __NR_accept : Nat := 16
def __NR_bind : Nat := 17
def __NR_closesocket : Nat := 18
def __NR_connect : Nat := 19
def __NR_listen : Nat := 20
def __NR_recv : Nat := 21
def __NR_send : Nat := 22
def __NR_socket : Nat := 23
def __NR_getsockopt : Nat := 24
def __NR_setsockopt : Nat := 25
def __NR_gethostbyname : Nat := 26
def __NR_sendto : Nat := 27
def __NR_recvfrom : Nat := 28
def __NR_select : Nat := 29
def __NR_stat : Nat := 30
def __NR_dup : Nat := 31
def __NR_dup2 : Nat := 32

/-- All system-call numbers defined in include/eduos/syscall.h, in source order. -/
def syscallNumbers : List Nat :=
  [__NR_exit, __NR_write, __NR_open, __NR_close, __NR_read, __NR_lseek,
   __NR_unlink, __NR_getpid, __NR_kill, __NR_fstat, __NR_sbrk, __NR_fork,
   __NR_wait, __NR_execve, __NR_times, __NR_accept, __NR_bind,
   __NR_closesocket, __NR_connect, __NR_listen, __NR_recv, __NR_send,
   __NR_socket, __NR_getsockopt, __NR_setsockopt, __NR_gethostbyname,
   __NR_sendto, __NR_recvfrom, __NR_select, __NR_stat, __NR_dup, __NR_dup2]

/-! Model of arch/x86/include/asm/processor.h (feature record and accessors) -/

def CPU_FEATURE_FPU : Nat := 1 <<< 0
def CPU_FEATURE_MSR : Nat := 1 <<< 5
def CPU_FEATURE_APIC : Nat := 1 <<< 9
def CPU_FEATURE_MMX : Nat := 1 <<< 23
def CPU_FEATURE_FXSR : Nat := 1 <<< 24
def CPU_FEATURE_SSE : Nat := 1 <<< 25
def CPU_FEATURE_SSE2 : Nat := 1 <<< 26
def CPU_FEATURE_X2APIC : Nat := 1 <<< 21
def CPU_FEATURE_AVX : Nat := 1 <<< 28
def CPU_FEATURE_HYPERVISOR : Nat := 1 <<< 31

/-- CPU feature record: two uint32 feature words filled in by cpu_detection. -/
structure cpu_info_t where
  feature1 : Nat
  feature2 : Nat

def has_fpu (c : cpu_info_t) : Nat := c.feature1 &&& CPU_FEATURE_FPU

def has_msr (c : cpu_info_t) : Nat := c.feature1 &&& CPU_FEATURE_MSR

def has_apic (c : cpu_info_t) : Nat := c.feature1 &&& CPU_FEATURE_APIC

def has_fxsr (c : cpu_info_t) : Nat := c.feature1 &&& CPU_FEATURE_FXSR

def has_sse (c : cpu_info_t) : Nat := c.feature1 &&& CPU_FEATURE_SSE

def has_sse2 (c : cpu_info_t) : Nat := c.feature1 &&& CPU_FEATURE_SSE2

def has_x2apic (c : cpu_info_t) : Nat := c.feature2 &&& CPU_FEATURE_X2APIC

def has_avx (c : cpu_info_t) : Nat := c.feature2 &&& CPU_FEATURE_AVX

def on_hypervisor (c : cpu_info_t) : Nat := c.feature2 &&& CPU_FEATURE_HYPERVISOR

/-! Virtual address decomposition.

Modelled from the spec: directory-index (bits 22-31), table-index (bits 12-21)
and a 12-bit in-page offset (bits 0-11) fully decompose every 32-bit virtual
address (10 + 10 + 12 bits). The index macros themselves are not among the
given sources; only the constants they are built from are. -/

/-- Modelled from the spec: the directory index of a virtual address,
bits 22-31. -/
def pgdIndex (a : Nat) : Nat := a / 2 ^ (PAGE_BITS + PAGE_MAP_BITS) % 2 ^ PAGE_MAP_BITS

/-- Modelled from the spec: the table index of a virtual address, bits 12-21. -/
def pgtIndex (a : Nat) : Nat := a / 2 ^ PAGE_BITS % 2 ^ PAGE_MAP_BITS

/-- Modelled from the spec: the in-page offset of a virtual address,
bits 0-11. -/
def pageOffset (a : Nat) : Nat := a % 2 ^ PAGE_BITS

/-- Modelled from the spec: recombine directory index, table index and in-page
offset into a virtual address. -/
def recompose (i j o : Nat) : Nat := i * 2 ^ (PAGE_BITS + PAGE_MAP_BITS) + j * 2 ^ PAGE_BITS + o

/-! Model of the Address Space Manager (page.h declares these operations; their
bodies are not among the given sources, so they are modelled from the spec). -/

/-- Modelled from the spec: one address space is its Directory; each directory
slot is either absent or references a second-level Table of leaf entries
(the Table is a total map from table index to raw entry value). -/
structure PageMap where
  dir : Nat → Option (Nat → Nat)

/-- An address space with no mappings at all. -/
def emptyMap : PageMap := ⟨fun _ => none⟩

/-- Modelled from the spec: map one virtual page. Decompose the address into
directory/table indices; if the Directory entry is absent, obtain a fresh
zeroed frame from the Frame Allocator and install it as a new Table; write the
leaf Entry with the physical address and requested flags, setting present. -/
def mapPage (s : PageMap) (viraddr phyaddr flags : Nat) : PageMap :=
  let pdi := pgdIndex viraddr
  let pti := pgtIndex viraddr
  let t := (s.dir pdi).getD fun _ => 0
  ⟨fun i => if i = pdi then
      some fun j => if j = pti then phyaddr ||| flags ||| PG_PRESENT else t j
    else s.dir i⟩

/-- Modelled from the spec: page_map(viraddr, phyaddr, pages, flags) maps
pages consecutive frames starting at phyaddr to pages consecutive virtual
pages starting at viraddr, applying flags to every leaf entry, in increasing
page order; addresses advance in 32-bit size_t arithmetic. Allocation of
intermediate Tables is modelled as always succeeding (the claims condition on
a successful call). -/
def page_map (s : PageMap) (viraddr phyaddr pages flags : Nat) : PageMap :=
  match pages with
  | 0 => s
  | n + 1 =>
    mapPage (page_map s viraddr phyaddr n flags)
      ((viraddr + n * PAGE_SIZE) % 2 ^ BITS)
      ((phyaddr + n * PAGE_SIZE) % 2 ^ BITS) flags

/-- Mask that keeps the low flag bits except the present bit: clearing the
present and address bits of an entry e is e &&& unmapMask. -/
def unmapMask : Nat := 0xFFE

/-- Modelled from the spec: unmap one virtual page by clearing present and
address bits of its leaf entry; the owning Table is kept. An absent Directory
entry leaves the state unchanged. -/
def unmapPage (s : PageMap) (viraddr : Nat) : PageMap :=
  match s.dir (pgdIndex viraddr) with
  | none => s
  | some t =>
    ⟨fun i => if i = pgdIndex viraddr then
        some fun j => if j = pgtIndex viraddr then t j &&& unmapMask else t j
      else s.dir i⟩

/-- Modelled from the spec: page_unmap(viraddr, pages) clears present and
address bits on every leaf Entry in the page-aligned range, in increasing page
order; addresses advance in 32-bit size_t arithmetic. -/
def page_unmap (s : PageMap) (viraddr pages : Nat) : PageMap :=
  match pages with
  | 0 => s
  | n + 1 =>
    unmapPage (page_unmap s viraddr n) ((viraddr + n * PAGE_SIZE) % 2 ^ BITS)

/-- Modelled from the spec: virt_to_phys decomposes viraddr, reads the
Directory entry then the Table entry; if either is absent, signals a
not-present failure (none); otherwise returns the mapped physical base plus
the original in-page offset. -/
def virt_to_phys (s : PageMap) (viraddr : Nat) : Option Nat :=
  match s.dir (pgdIndex viraddr) with
  | none => none
  | some t =>
    if t (pgtIndex viraddr) &&& PG_PRESENT = 0 then none
    else some ((t (pgtIndex viraddr) &&& PAGE_MASK) + viraddr % PAGE_SIZE)

/-- The raw leaf entry a virtual address resolves to, if its Directory slot is
present. -/
def leafOpt (s : PageMap) (a : Nat) : Option Nat :=
  (s.dir (pgdIndex a)).map fun t => t (pgtIndex a)

/-! Frame-ownership model for page_map_drop (modelled from the spec). -/

/-- Modelled from the spec: a second-level Table as seen by teardown: the
physical frame holding the Table itself and the list of its leaf entries. -/
structure PgTable where
  frame : Nat
  entries : List Nat

/-- The physical frames referenced by the present leaf entries of a Table. -/
def leafFrames (t : PgTable) : List Nat :=
  (t.entries.filter fun e => e &&& PG_PRESENT != 0).map fun e => e &&& PAGE_MASK

/-- The frames a directory slot owns: every present leaf frame, then the frame
holding the Table itself; an absent slot owns nothing. -/
def slotFrames : Option PgTable → List Nat
  | none => []
  | some t => leafFrames t ++ [t.frame]

/-- Modelled from the spec: walk the directory slots starting at index i.
A private/user slot (index at or above the split) has all its frames released
to the Frame Allocator, leaf frames first, then the Table frame, and the slot
is cleared; a shared/kernel slot (below the split) is left completely
untouched. Returns the directory after the walk and the frames released, in
release order. -/
def dropSlots (split : Nat) : Nat → List (Option PgTable) → List (Option PgTable) × List Nat
  | _, [] => ([], [])
  | i, slot :: rest =>
    if split ≤ i then
      (none :: (dropSlots split (i + 1) rest).1,
        slotFrames slot ++ (dropSlots split (i + 1) rest).2)
    else
      (slot :: (dropSlots split (i + 1) rest).1, (dropSlots split (i + 1) rest).2)

/-- Modelled from the spec: page_map_drop walks every Directory entry of the
map; for private/user-range entries it releases every leaf frame and the Table
itself back to the Frame Allocator; shared/kernel-range entries are left
completely untouched. The split directory index separating the shared/kernel
range from the private/user range is a parameter. -/
def page_map_drop (split : Nat) (m : List (Option PgTable)) : List (Option PgTable) × List Nat :=
  dropSlots split 0 m

/-- The frames exclusively owned by the private/user range of a directory:
all frames of slots at or above the split index. -/
def ownedFrames (split : Nat) (m : List (Option PgTable)) : List Nat :=
  ((m.enumFrom 0).filter fun p => decide (split ≤ p.1)).flatMap fun p => slotFrames p.2

/-- The frames referenced from the shared/kernel range of a directory:
all frames of slots below the split index. -/
def kernelFrames (split : Nat) (m : List (Option PgTable)) : List Nat :=
  ((m.enumFrom 0).filter fun p => decide (p.1 < split)).flatMap fun p => slotFrames p.2

/-! General bit-arithmetic helper lemmas -/

-- A bit test against a power-of-two mask is the corresponding testBit.
theorem land_two_pow_ne_zero_iff (x k : Nat) : x &&& 2 ^ k ≠ 0 ↔ x.testBit k := by
  rw [Nat.and_two_pow]
  cases h : x.testBit k <;> simp [h]

-- Bits below the alignment of a page-aligned value are clear.
theorem testBit_eq_false_of_align (a k i : Nat) (h : a % 2 ^ k = 0) (hik : i < k) :
    a.testBit i = false := by
  have h1 := Nat.testBit_mod_two_pow a k i
  rw [h, Nat.zero_testBit] at h1
  simpa [hik] using h1.symm

-- Masking a 32-bit value with PAGE_MASK rounds it down to a page multiple.
theorem land_PAGE_MASK (a : Nat) (ha : a < 2 ^ 32) :
    a &&& PAGE_MASK = a / 2 ^ 12 * 2 ^ 12 := by
  have hm : PAGE_MASK = (2 ^ 20 - 1) <<< 12 := by decide
  have hr : a / 2 ^ 12 * 2 ^ 12 = (a >>> 12) <<< 12 := by
    rw [Nat.shiftRight_eq_div_pow, Nat.shiftLeft_eq]
  apply Nat.eq_of_testBit_eq
  intro i
  rw [Nat.testBit_land, hm, hr, Nat.testBit_shiftLeft, Nat.testBit_shiftLeft,
    Nat.testBit_shiftRight, Nat.testBit_two_pow_sub_one]
  by_cases h12 : 12 ≤ i
  · rw [Nat.add_sub_cancel' h12]
    by_cases h32 : i < 32
    · have h20 : i - 12 < 20 := by omega
      simp [h12, h20]
    · have hf : a.testBit i = false :=
        Nat.testBit_eq_false_of_lt
          (lt_of_lt_of_le ha (Nat.pow_le_pow_right (by norm_num) (by omega)))
      have h20 : ¬ i - 12 < 20 := by omega
      simp [h12, h20, hf]
  · simp [h12]

-- Decoding a leaf entry written as address OR flags OR present: the present
-- bit is set and masking with PAGE_MASK recovers the address.
theorem entry_decode (pa flags : Nat) (hpa : pa % 2 ^ 12 = 0) (hlt : pa < 2 ^ 32)
    (hf : flags < 2 ^ 12) :
    (pa ||| flags ||| PG_PRESENT) &&& PG_PRESENT ≠ 0 ∧
      (pa ||| flags ||| PG_PRESENT) &&& PAGE_MASK = pa := by
  have hone : PG_PRESENT = 2 ^ 0 := by decide
  have hassoc : pa ||| flags ||| PG_PRESENT = pa ||| (flags ||| PG_PRESENT) :=
    Nat.or_assoc pa flags PG_PRESENT
  have hs : flags ||| PG_PRESENT < 2 ^ 12 :=
    Nat.or_lt_two_pow hf (by decide)
  constructor
  · rw [hone, land_two_pow_ne_zero_iff, Nat.testBit_lor]
    simp
  · have hm : PAGE_MASK = (2 ^ 20 - 1) <<< 12 := by decide
    apply Nat.eq_of_testBit_eq
    intro i
    rw [Nat.testBit_land, hassoc, Nat.testBit_lor, hm, Nat.testBit_shiftLeft,
      Nat.testBit_two_pow_sub_one]
    by_cases h12 : 12 ≤ i
    · have hsb : (flags ||| PG_PRESENT).testBit i = false :=
        Nat.testBit_eq_false_of_lt
          (lt_of_lt_of_le hs (Nat.pow_le_pow_right (by norm_num) h12))
      by_cases h32 : i < 32
      · have h20 : i - 12 < 20 := by omega
        simp [h12, h20, hsb]
      · have hfp : pa.testBit i = false :=
          Nat.testBit_eq_false_of_lt
            (lt_of_lt_of_le hlt (Nat.pow_le_pow_right (by norm_num) (by omega)))
        have h20 : ¬ i - 12 < 20 := by omega
        simp [h12, h20, hsb, hfp]
    · have hfp : pa.testBit i = false := testBit_eq_false_of_align pa 12 i hpa (by omega)
      simp [h12, hfp]

-- Convenience evaluations of constant definitions.
theorem PAGE_SIZE_eq : PAGE_SIZE = 4096 := by decide

theorem BITS_eq : BITS = 32 := rfl

theorem PAGE_FLOOR_eq (a : Nat) : PAGE_FLOOR a = ((a + 4095) % 2 ^ 32) &&& PAGE_MASK := by
  have h : a + PAGE_SIZE - 1 = a + 4095 := by rw [PAGE_SIZE_eq]; omega
  simp only [PAGE_FLOOR, h, BITS_eq]

/-- C4: the ten Entry flag masks have exactly the spec's bit positions
(present = 2^0 up to boot-marker = 2^9), are pairwise distinct, all lie below
2^12, and PAGE_MASK = 0xFFFFF000 covers exactly the remaining high-order 20
bits (it is disjoint from the low 12 bits and together with them fills all 32
bits). -/
theorem pg_flag_bit_layout :
    PG_PRESENT = 2 ^ 0 ∧ PG_RW = 2 ^ 1 ∧ PG_USER = 2 ^ 2 ∧ PG_PWT = 2 ^ 3 ∧
    PG_PCD = 2 ^ 4 ∧ PG_ACCESSED = 2 ^ 5 ∧ PG_DIRTY = 2 ^ 6 ∧ PG_PSE = 2 ^ 7 ∧
    PG_GLOBAL = 2 ^ 8 ∧ PG_BOOT = 2 ^ 9 ∧
    ([PG_PRESENT, PG_RW, PG_USER, PG_PWT, PG_PCD, PG_ACCESSED, PG_DIRTY,
      PG_PSE, PG_GLOBAL, PG_BOOT].Nodup) ∧
    (([PG_PRESENT, PG_RW, PG_USER, PG_PWT, PG_PCD, PG_ACCESSED, PG_DIRTY,
      PG_PSE, PG_GLOBAL, PG_BOOT].all fun f => decide (f < 2 ^ 12)) = true) ∧
    PAGE_MASK = 0xFFFFF000 ∧ PAGE_MASK &&& (2 ^ 12 - 1) = 0 ∧
    PAGE_MASK ||| (2 ^ 12 - 1) = 2 ^ 32 - 1 ∧ PAGE_MASK = (2 ^ 20 - 1) * 2 ^ 12 := by
  decide

/-- C6: the two self-map window constants are page-aligned and the directory
window address is the table-window slot of the last directory index:
PAGE_MAP_PGD = PAGE_MAP_PGT + 1023 * PAGE_SIZE, consistent with the
table-window accessor PAGE_MAP_PGT + index * PAGE_SIZE. -/
theorem self_map_window_constants :
    PAGE_MAP_PGD % PAGE_SIZE = 0 ∧ PAGE_MAP_PGT % PAGE_SIZE = 0 ∧
    PAGE_MAP_PGD = PAGE_MAP_PGT + 1023 * PAGE_SIZE ∧
    PAGE_MAP_PGD = pgtWindowAddr 1023 := by
  decide

/-- C8: the system-call numbers are pairwise distinct, all lie in 0..32, and
cover that range completely except for exactly one gap at number 5, between
read = 4 and lseek = 6. -/
theorem syscall_number_table_layout :
    syscallNumbers.Nodup ∧
    (syscallNumbers.all fun k => decide (k ≤ 32)) = true ∧
    ((List.range 33).all fun k => decide (k ∈ syscallNumbers) == decide (k ≠ 5)) = true ∧
    __NR_read = 4 ∧ __NR_lseek = 6 := by
  decide

/-- C10: PG_PAT is defined identical to PG_PSE (both 2^7), so the predicate
of carrying the page-attribute-table flag equals the predicate of carrying the
large-page marker on every entry value. -/
theorem pg_pat_equals_pg_pse :
    PG_PAT = PG_PSE ∧ PG_PAT = 2 ^ 7 ∧
    ∀ e : Nat, ((e &&& PG_PAT ≠ 0) ↔ (e &&& PG_PSE ≠ 0)) :=
  ⟨rfl, by decide, fun _ => Iff.rfl⟩

/-- C5: splitting a 32-bit virtual address into a 10-bit directory index, a
10-bit table index and a 12-bit offset and recombining yields the original
address, the recombination inverts the split on in-range triples, and the
table-geometry constants satisfy PAGE_MAP_ENTRIES = 2^PAGE_MAP_BITS = 1024
and PAGE_MAP_LEVELS * PAGE_MAP_BITS + PAGE_BITS = 32 = VIRT_BITS. -/
theorem virt_addr_decomposition_bijective :
    (PAGE_MAP_ENTRIES = 2 ^ PAGE_MAP_BITS ∧ PAGE_MAP_ENTRIES = 1024 ∧
      PAGE_MAP_LEVELS * PAGE_MAP_BITS + PAGE_BITS = 32 ∧ VIRT_BITS = 32) ∧
    (∀ a, a < 2 ^ 32 →
      recompose (pgdIndex a) (pgtIndex a) (pageOffset a) = a ∧
      pgdIndex a < PAGE_MAP_ENTRIES ∧ pgtIndex a < PAGE_MAP_ENTRIES ∧
      pageOffset a < PAGE_SIZE) ∧
    (∀ i j o, i < 1024 → j < 1024 → o < 4096 →
      pgdIndex (recompose i j o) = i ∧ pgtIndex (recompose i j o) = j ∧
      pageOffset (recompose i j o) = o ∧ recompose i j o < 2 ^ 32) := by
  refine ⟨by decide, ?_, ?_⟩
  · intro a ha
    have hE : PAGE_MAP_ENTRIES = 1024 := by decide
    simp only [recompose, pgdIndex, pgtIndex, pageOffset, PAGE_BITS, PAGE_MAP_BITS,
      hE, PAGE_SIZE_eq]
    norm_num
    omega
  · intro i j o hi hj ho
    simp only [recompose, pgdIndex, pgtIndex, pageOffset, PAGE_BITS, PAGE_MAP_BITS]
    norm_num
    omega

/-- Witness for C5: the decomposition round-trips on the concrete address
0x40001234. -/
theorem virt_addr_decomposition_bijective_witness :
    recompose (pgdIndex 0x40001234) (pgtIndex 0x40001234) (pageOffset 0x40001234) = 0x40001234 :=
  (virt_addr_decomposition_bijective.2.1 0x40001234 (by decide)).1

/-- C9: for every 32-bit address, PAGE_CEIL rounds down to the greatest page
multiple at or below the address, while PAGE_FLOOR rounds up to the least page
multiple at or above it whenever the address is at most 0xFFFFF000, and wraps
around to 0 (in 32-bit arithmetic) for any address above 0xFFFFF000. -/
theorem page_floor_ceil_semantics :
    ∀ a, a < 2 ^ 32 →
      (PAGE_CEIL a % PAGE_SIZE = 0 ∧ PAGE_CEIL a ≤ a ∧
        (∀ m, m % PAGE_SIZE = 0 → m ≤ a → m ≤ PAGE_CEIL a)) ∧
      (a ≤ 0xFFFFF000 →
        PAGE_FLOOR a % PAGE_SIZE = 0 ∧ a ≤ PAGE_FLOOR a ∧
        (∀ m, m % PAGE_SIZE = 0 → a ≤ m → PAGE_FLOOR a ≤ m)) ∧
      (0xFFFFF000 < a → PAGE_FLOOR a = 0) := by
  intro a ha
  have hceil : PAGE_CEIL a = a / 4096 * 4096 := by
    have h := land_PAGE_MASK a ha
    norm_num at h
    exact h
  refine ⟨⟨?_, ?_, ?_⟩, ?_, ?_⟩
  · rw [hceil, PAGE_SIZE_eq]; omega
  · rw [hceil]; omega
  · intro m hm hle
    rw [PAGE_SIZE_eq] at hm
    rw [hceil]
    omega
  · intro hle
    have hmod : (a + 4095) % 2 ^ 32 = a + 4095 := Nat.mod_eq_of_lt (by norm_num; omega)
    have hfl : PAGE_FLOOR a = (a + 4095) / 4096 * 4096 := by
      rw [PAGE_FLOOR_eq, hmod]
      have h := land_PAGE_MASK (a + 4095) (by norm_num; omega)
      norm_num at h
      exact h
    refine ⟨?_, ?_, ?_⟩
    · rw [hfl, PAGE_SIZE_eq]; omega
    · rw [hfl]; omega
    · intro m hm hle'
      rw [PAGE_SIZE_eq] at hm
      rw [hfl]
      omega
  · intro hgt
    have hmod : (a + 4095) % 2 ^ 32 = a + 4095 - 2 ^ 32 := by
      rw [Nat.mod_eq_sub_mod (by norm_num; omega), Nat.mod_eq_of_lt (by norm_num; omega)]
    have hfl : PAGE_FLOOR a = (a + 4095 - 2 ^ 32) / 4096 * 4096 := by
      rw [PAGE_FLOOR_eq, hmod]
      have h := land_PAGE_MASK (a + 4095 - 2 ^ 32) (by norm_num; omega)
      norm_num at h
      exact h
    rw [hfl]
    have : (a + 4095 - 2 ^ 32) / 4096 = 0 := Nat.div_eq_of_lt (by norm_num; omega)
    rw [this]

/-- Witness for C9: PAGE_FLOOR wraps to 0 at the concrete address
0xFFFFFFFF, in the last page of the address space. -/
theorem page_floor_ceil_semantics_witness : PAGE_FLOOR 0xFFFFFFFF = 0 :=
  (page_floor_ceil_semantics 0xFFFFFFFF (by decide)).2.2 (by decide)

/-- C7: every CPU feature accessor is a pure function of the feature record
(equal record contents give equal results; no state is modified, which the
embedding shows by construction), and each returns nonzero exactly when its
designated bit of cpu_info is set: feature1 bits 0/5/9/24/25/26 for
FPU/MSR/APIC/FXSR/SSE/SSE2 and feature2 bits 21/28/31 for
x2APIC/AVX/hypervisor. -/
theorem cpu_feature_accessors_pure_and_correct (c c' : cpu_info_t)
    (h1 : c.feature1 = c'.feature1) (h2 : c.feature2 = c'.feature2) :
    (has_fpu c = has_fpu c' ∧ has_msr c = has_msr c' ∧ has_apic c = has_apic c' ∧
      has_fxsr c = has_fxsr c' ∧ has_sse c = has_sse c' ∧ has_sse2 c = has_sse2 c' ∧
      has_x2apic c = has_x2apic c' ∧ has_avx c = has_avx c' ∧
      on_hypervisor c = on_hypervisor c') ∧
    ((has_fpu c ≠ 0 ↔ c.feature1.testBit 0) ∧ (has_msr c ≠ 0 ↔ c.feature1.testBit 5) ∧
      (has_apic c ≠ 0 ↔ c.feature1.testBit 9) ∧ (has_fxsr c ≠ 0 ↔ c.feature1.testBit 24) ∧
      (has_sse c ≠ 0 ↔ c.feature1.testBit 25) ∧ (has_sse2 c ≠ 0 ↔ c.feature1.testBit 26) ∧
      (has_x2apic c ≠ 0 ↔ c.feature2.testBit 21) ∧ (has_avx c ≠ 0 ↔ c.feature2.testBit 28) ∧
      (on_hypervisor c ≠ 0 ↔ c.feature2.testBit 31)) := by
  constructor
  · simp [has_fpu, has_msr, has_apic, has_fxsr, has_sse, has_sse2, has_x2apic,
      has_avx, on_hypervisor, h1, h2]
  · refine ⟨?_, ?_, ?_, ?_, ?_, ?_, ?_, ?_, ?_⟩
    · simp only [has_fpu]
      rw [show CPU_FEATURE_FPU = 2 ^ 0 by decide]
      exact land_two_pow_ne_zero_iff _ 0
    · simp only [has_msr]
      rw [show CPU_FEATURE_MSR = 2 ^ 5 by decide]
      exact land_two_pow_ne_zero_iff _ 5
    · simp only [has_apic]
      rw [show CPU_FEATURE_APIC = 2 ^ 9 by decide]
      exact land_two_pow_ne_zero_iff _ 9
    · simp only [has_fxsr]
      rw [show CPU_FEATURE_FXSR = 2 ^ 24 by decide]
      exact land_two_pow_ne_zero_iff _ 24
    · simp only [has_sse]
      rw [show CPU_FEATURE_SSE = 2 ^ 25 by decide]
      exact land_two_pow_ne_zero_iff _ 25
    · simp only [has_sse2]
      rw [show CPU_FEATURE_SSE2 = 2 ^ 26 by decide]
      exact land_two_pow_ne_zero_iff _ 26
    · simp only [has_x2apic]
      rw [show CPU_FEATURE_X2APIC = 2 ^ 21 by decide]
      exact land_two_pow_ne_zero_iff _ 21
    · simp only [has_avx]
      rw [show CPU_FEATURE_AVX = 2 ^ 28 by decide]
      exact land_two_pow_ne_zero_iff _ 28
    · simp only [on_hypervisor]
      rw [show CPU_FEATURE_HYPERVISOR = 2 ^ 31 by decide]
      exact land_two_pow_ne_zero_iff _ 31

/-- Witness for C7: on the concrete record with feature1 = 3, feature2 = 5,
the FPU accessor reports the feature as present. -/
theorem cpu_feature_accessors_pure_and_correct_witness : has_fpu ⟨3, 5⟩ ≠ 0 :=
  ((cpu_feature_accessors_pure_and_correct ⟨3, 5⟩ ⟨3, 5⟩ rfl rfl).2.1).mpr (by decide)

/-! Lemmas about the Address Space Manager model -/

-- Leaf lookup after mapping a single page, at the very page just mapped.
theorem leafOpt_mapPage_self (s : PageMap) (va pa f : Nat) :
    leafOpt (mapPage s va pa f) va = some (pa ||| f ||| PG_PRESENT) := by
  simp [leafOpt, mapPage]

-- Mapping one page preserves every other present leaf entry.
theorem leafOpt_mapPage_preserve (s : PageMap) (va pa f a e : Nat)
    (hne : ¬(pgdIndex a = pgdIndex va ∧ pgtIndex a = pgtIndex va))
    (he : leafOpt s a = some e) :
    leafOpt (mapPage s va pa f) a = some e := by
  by_cases hd : pgdIndex a = pgdIndex va
  · have ht : pgtIndex a ≠ pgtIndex va := fun h => hne ⟨hd, h⟩
    rcases hm : s.dir (pgdIndex a) with _ | t0
    · rw [leafOpt, hm] at he
      simp at he
    · rw [leafOpt, hm] at he
      simp at he
      have hm' : s.dir (pgdIndex va) = some t0 := hd ▸ hm
      simp [leafOpt, mapPage, hd, hm', ht, he]
  · rw [leafOpt] at he
    simpa [leafOpt, mapPage, hd] using he

-- Leaf lookup after unmapping a single page.
theorem leafOpt_unmapPage (s : PageMap) (va a : Nat) :
    leafOpt (unmapPage s va) a =
      if pgdIndex a = pgdIndex va ∧ pgtIndex a = pgtIndex va then
        (leafOpt s a).map fun e => e &&& unmapMask
      else leafOpt s a := by
  rcases hm : s.dir (pgdIndex va) with _ | t
  · by_cases h : pgdIndex a = pgdIndex va ∧ pgtIndex a = pgtIndex va
    · simp [unmapPage, hm, leafOpt, h.1, h]
    · simp [unmapPage, hm, h]
  · by_cases hd : pgdIndex a = pgdIndex va
    · have hm' : s.dir (pgdIndex a) = some t := hd ▸ hm
      by_cases ht : pgtIndex a = pgtIndex va <;>
        simp [unmapPage, hm, leafOpt, hd, ht, hm']
    · simp [unmapPage, hm, leafOpt, hd]

-- Two distinct page-aligned 32-bit addresses have distinct index pairs.
theorem page_index_pair_inj (a b : Nat) (ha : a < 2 ^ 32) (hb : b < 2 ^ 32)
    (ha4 : a % PAGE_SIZE = 0) (hb4 : b % PAGE_SIZE = 0)
    (h1 : pgdIndex a = pgdIndex b) (h2 : pgtIndex a = pgtIndex b) : a = b := by
  rw [PAGE_SIZE_eq] at ha4 hb4
  simp only [pgdIndex, pgtIndex, PAGE_BITS, PAGE_MAP_BITS] at h1 h2
  norm_num at h1 h2
  omega

-- After page_map of a non-wrapping aligned range, every page of the range
-- resolves to the leaf entry written for it.
theorem page_map_leafOpt (v p f : Nat) (hv : v % PAGE_SIZE = 0) (hp : p % PAGE_SIZE = 0) :
    ∀ n, v + n * PAGE_SIZE ≤ 2 ^ 32 → p + n * PAGE_SIZE ≤ 2 ^ 32 →
      ∀ s : PageMap, ∀ i, i < n →
        leafOpt (page_map s v p n f) (v + i * PAGE_SIZE) =
          some ((p + i * PAGE_SIZE) ||| f ||| PG_PRESENT) := by
  have hS := PAGE_SIZE_eq
  rw [hS] at hv hp
  intro n
  induction n with
  | zero =>
    intro _ _ s i hi
    omega
  | succ n ih =>
    rw [hS]
    intro hvb hpb s i hi
    have hvb' : v + n * 4096 ≤ 2 ^ 32 := by omega
    have hpb' : p + n * 4096 ≤ 2 ^ 32 := by omega
    have hva : (v + n * PAGE_SIZE) % 2 ^ BITS = v + n * 4096 := by
      rw [hS, BITS_eq]
      exact Nat.mod_eq_of_lt (by omega)
    have hpa : (p + n * PAGE_SIZE) % 2 ^ BITS = p + n * 4096 := by
      rw [hS, BITS_eq]
      exact Nat.mod_eq_of_lt (by omega)
    show leafOpt (mapPage (page_map s v p n f)
      ((v + n * PAGE_SIZE) % 2 ^ BITS) ((p + n * PAGE_SIZE) % 2 ^ BITS) f) _ = _
    rw [hva, hpa]
    rcases Nat.lt_succ_iff_lt_or_eq.mp hi with hlt | heq
    · have hprev := ih (by rw [hS]; omega) (by rw [hS]; omega) s i hlt
      rw [hS] at hprev
      apply leafOpt_mapPage_preserve _ _ _ _ _ _ _ hprev
      rintro ⟨h1, h2⟩
      have := page_index_pair_inj (v + i * 4096) (v + n * 4096) (by omega) (by omega)
        (by rw [hS]; omega) (by rw [hS]; omega) h1 h2
      omega
    · subst heq
      exact leafOpt_mapPage_self _ _ _ _

-- virt_to_phys on a page whose leaf entry is present.
theorem virt_to_phys_present (s : PageMap) (a e : Nat) (he : leafOpt s a = some e)
    (hpres : e &&& PG_PRESENT ≠ 0) :
    virt_to_phys s a = some ((e &&& PAGE_MASK) + a % PAGE_SIZE) := by
  rcases hm : s.dir (pgdIndex a) with _ | t
  · rw [leafOpt, hm] at he
    simp at he
  · rw [leafOpt, hm] at he
    simp at he
    simp [virt_to_phys, hm, he, hpres]

-- virt_to_phys on a page whose leaf entry is not present.
theorem virt_to_phys_not_present (s : PageMap) (a e : Nat) (he : leafOpt s a = some e)
    (hpres : e &&& PG_PRESENT = 0) : virt_to_phys s a = none := by
  rcases hm : s.dir (pgdIndex a) with _ | t
  · simp [virt_to_phys, hm]
  · rw [leafOpt, hm] at he
    simp at he
    simp [virt_to_phys, hm, he, hpres]

/-- C1: for every page-aligned virtual address v, page-aligned physical
address p, page count n > 0 and flag set flags (low 12 bits), after a
successful page_map(v, p, n, flags) on any prior address space, for every
page offset i < n, virt_to_phys(v + i*4096) returns p + i*4096 (ranges not
wrapping around the 32-bit address space). -/
theorem page_map_then_virt_to_phys (s : PageMap) (v p n flags : Nat)
    (hv : v % PAGE_SIZE = 0) (hp : p % PAGE_SIZE = 0) (_hn : 0 < n)
    (hf : flags < PAGE_SIZE)
    (hvb : v + n * PAGE_SIZE ≤ 2 ^ 32) (hpb : p + n * PAGE_SIZE ≤ 2 ^ 32) :
    ∀ i, i < n →
      virt_to_phys (page_map s v p n flags) (v + i * PAGE_SIZE) =
        some (p + i * PAGE_SIZE) := by
  intro i hi
  have hS := PAGE_SIZE_eq
  have hleaf := page_map_leafOpt v p flags hv hp n hvb hpb s i hi
  rw [hS] at hv hp hf hvb hpb
  have hdec := entry_decode (p + i * PAGE_SIZE) flags
    (by rw [hS]; norm_num; omega) (by rw [hS]; norm_num; omega) (by norm_num; omega)
  rw [virt_to_phys_present _ _ _ hleaf hdec.1, hdec.2]
  have hoff : (v + i * PAGE_SIZE) % PAGE_SIZE = 0 := by rw [hS]; omega
  rw [hoff, Nat.add_zero]

/-- Witness for C1: mapping 3 pages at virtual base 0x40000000 to physical
base 0x100000 with writable+user flags, the second page translates to
0x101000. -/
theorem page_map_then_virt_to_phys_witness :
    virt_to_phys (page_map emptyMap 0x40000000 0x100000 3 (PG_RW ||| PG_USER))
      (0x40000000 + 1 * PAGE_SIZE) = some (0x100000 + 1 * PAGE_SIZE) :=
  page_map_then_virt_to_phys emptyMap 0x40000000 0x100000 3 (PG_RW ||| PG_USER)
    (by decide) (by decide) (by decide) (by decide) (by decide) (by decide) 1 (by decide)

-- Unmapping a range leaves every aligned page outside the range untouched.
theorem page_unmap_leafOpt_untouched (v : Nat) (hv : v % PAGE_SIZE = 0) :
    ∀ n, v + n * PAGE_SIZE ≤ 2 ^ 32 → ∀ s : PageMap, ∀ a, a < 2 ^ 32 →
      a % PAGE_SIZE = 0 → (∀ j, j < n → a ≠ v + j * PAGE_SIZE) →
      leafOpt (page_unmap s v n) a = leafOpt s a := by
  have hS := PAGE_SIZE_eq
  rw [hS] at hv
  intro n
  induction n with
  | zero =>
    intro _ s a _ _ _
    rfl
  | succ n ih =>
    rw [hS]
    intro hvb s a ha ha4 hne
    have hva : (v + n * PAGE_SIZE) % 2 ^ BITS = v + n * 4096 := by
      rw [hS, BITS_eq]
      exact Nat.mod_eq_of_lt (by omega)
    show leafOpt (unmapPage (page_unmap s v n) ((v + n * PAGE_SIZE) % 2 ^ BITS)) a = _
    rw [hva, leafOpt_unmapPage]
    have hcond : ¬(pgdIndex a = pgdIndex (v + n * 4096) ∧ pgtIndex a = pgtIndex (v + n * 4096)) := by
      rintro ⟨h1, h2⟩
      exact hne n (by omega) (page_index_pair_inj a (v + n * 4096) ha (by omega)
        (by rw [hS]; omega) (by rw [hS]; omega) h1 h2)
    rw [if_neg hcond]
    exact ih (by rw [hS]; omega) s a ha (by rw [hS]; omega)
      (fun j hj => by rw [hS]; exact hne j (by omega))

-- After page_unmap of a non-wrapping aligned range, every page in the range
-- has its leaf entry masked with unmapMask (present and address bits clear).
theorem page_unmap_leafOpt (v : Nat) (hv : v % PAGE_SIZE = 0) :
    ∀ n, v + n * PAGE_SIZE ≤ 2 ^ 32 → ∀ s : PageMap, ∀ i, i < n →
      leafOpt (page_unmap s v n) (v + i * PAGE_SIZE) =
        (leafOpt s (v + i * PAGE_SIZE)).map fun e => e &&& unmapMask := by
  have hS := PAGE_SIZE_eq
  rw [hS] at hv
  intro n
  induction n with
  | zero =>
    intro _ s i hi
    omega
  | succ n ih =>
    rw [hS]
    intro hvb s i hi
    have hva : (v + n * PAGE_SIZE) % 2 ^ BITS = v + n * 4096 := by
      rw [hS, BITS_eq]
      exact Nat.mod_eq_of_lt (by omega)
    show leafOpt (unmapPage (page_unmap s v n) ((v + n * PAGE_SIZE) % 2 ^ BITS)) _ = _
    rw [hva, leafOpt_unmapPage]
    rcases Nat.lt_succ_iff_lt_or_eq.mp hi with hlt | heq
    · have hcond : ¬(pgdIndex (v + i * 4096) = pgdIndex (v + n * 4096) ∧
          pgtIndex (v + i * 4096) = pgtIndex (v + n * 4096)) := by
        rintro ⟨h1, h2⟩
        have := page_index_pair_inj (v + i * 4096) (v + n * 4096) (by omega) (by omega)
          (by rw [hS]; omega) (by rw [hS]; omega) h1 h2
        omega
      rw [if_neg hcond]
      have := ih (by rw [hS]; omega) s i hlt
      rw [hS] at this
      exact this
    · subst heq
      rw [if_pos ⟨rfl, rfl⟩]
      have huntouched := page_unmap_leafOpt_untouched v (by rw [hS]; omega) i
        (by rw [hS]; omega) s (v + i * 4096) (by omega) (by rw [hS]; omega)
        (fun j hj => by rw [hS]; omega)
      rw [huntouched]

/-- C3: after page_unmap(v, n) is applied to a range previously mapped by a
successful page_map, virt_to_phys on each of the n pages signals a
not-present failure (none) instead of returning a physical address. -/
theorem page_unmap_then_virt_to_phys_not_present (s : PageMap) (v p n flags : Nat)
    (hv : v % PAGE_SIZE = 0) (hp : p % PAGE_SIZE = 0) (_hn : 0 < n)
    (_hf : flags < PAGE_SIZE)
    (hvb : v + n * PAGE_SIZE ≤ 2 ^ 32) (hpb : p + n * PAGE_SIZE ≤ 2 ^ 32) :
    ∀ i, i < n →
      virt_to_phys (page_unmap (page_map s v p n flags) v n) (v + i * PAGE_SIZE) = none := by
  intro i hi
  have hleaf := page_map_leafOpt v p flags hv hp n hvb hpb s i hi
  have hun := page_unmap_leafOpt v hv n hvb (page_map s v p n flags) i hi
  rw [hleaf] at hun
  simp only [Option.map_some'] at hun
  apply virt_to_phys_not_present _ _ _ hun
  rw [Nat.land_assoc]
  rw [show unmapMask &&& PG_PRESENT = 0 by decide]
  simp

/-- Witness for C3: mapping then unmapping 3 pages at virtual base
0x40000000, the second page no longer translates. -/
theorem page_unmap_then_virt_to_phys_not_present_witness :
    virt_to_phys
      (page_unmap (page_map emptyMap 0x40000000 0x100000 3 (PG_RW ||| PG_USER)) 0x40000000 3)
      (0x40000000 + 1 * PAGE_SIZE) = none :=
  page_unmap_then_virt_to_phys_not_present emptyMap 0x40000000 0x100000 3 (PG_RW ||| PG_USER)
    (by decide) (by decide) (by decide) (by decide) (by decide) (by decide) 1 (by decide)

-- The frames released by the directory walk are exactly the frames of the
-- user-range slots, in slot order.
theorem dropSlots_snd (split : Nat) :
    ∀ (m : List (Option PgTable)) (i : Nat),
      (dropSlots split i m).2 =
        ((m.enumFrom i).filter fun p => decide (split ≤ p.1)).flatMap
          fun p => slotFrames p.2 := by
  intro m
  induction m with
  | nil => intro i; simp [dropSlots]
  | cons slot rest ih =>
    intro i
    by_cases h : split ≤ i <;>
      simp [dropSlots, h, List.enumFrom_cons, List.filter_cons, ih (i + 1)]

-- The directory walk leaves slots below the split untouched.
theorem dropSlots_fst_get (split : Nat) :
    ∀ (m : List (Option PgTable)) (i j : Nat), i + j < split →
      (dropSlots split i m).1.get? j = m.get? j := by
  intro m
  induction m with
  | nil => intro i j _; simp [dropSlots]
  | cons slot rest ih =>
    intro i j hj
    have h : ¬ split ≤ i := by omega
    cases j with
    | zero => simp [dropSlots, h]
    | succ j' =>
      simp only [dropSlots, if_neg h, List.get?]
      exact ih (i + 1) j' (by omega)

/-- C2: after page_map_drop(map) returns, every frame exclusively owned by the
map's private/user range (its user-range Tables and their present leaf
frames, assumed pairwise distinct and disjoint from the kernel-range frames)
has been released to the Frame Allocator exactly once — the release list has
no duplicates and contains exactly the owned frames — while every directory
entry in the shared/kernel range is unchanged and none of the frames it
references is released. -/
theorem page_map_drop_frees_user_frames_once (split : Nat) (m : List (Option PgTable))
    (hnd : (ownedFrames split m).Nodup)
    (hdisj : ((kernelFrames split m).all fun fr => decide (fr ∉ ownedFrames split m)) = true) :
    (page_map_drop split m).2.Nodup ∧
    (∀ fr, fr ∈ (page_map_drop split m).2 ↔ fr ∈ ownedFrames split m) ∧
    (∀ j, j < split → (page_map_drop split m).1.get? j = m.get? j) ∧
    (∀ fr, fr ∈ kernelFrames split m → fr ∉ (page_map_drop split m).2) := by
  have hsnd : (page_map_drop split m).2 = ownedFrames split m := dropSlots_snd split m 0
  refine ⟨?_, ?_, ?_, ?_⟩
  · rw [hsnd]; exact hnd
  · intro fr
    rw [hsnd]
  · intro j hj
    exact dropSlots_fst_get split m 0 j (by omega)
  · intro fr hker
    rw [hsnd]
    exact of_decide_eq_true (List.all_eq_true.mp hdisj fr hker)

/-- Witness for C2: dropping a concrete three-slot directory (one kernel slot,
one user slot, one absent slot) with split index 1 releases a duplicate-free
list of frames. -/
theorem page_map_drop_frees_user_frames_once_witness :
    (page_map_drop 1 [some ⟨0x1000, [0x2001, 0x3000]⟩, some ⟨0x4000, [0x5003]⟩, none]).2.Nodup :=
  (page_map_drop_frees_user_frames_once 1
    [some ⟨0x1000, [0x2001, 0x3000]⟩, some ⟨0x4000, [0x5003]⟩, none]
    (by decide) (by decide)).1
